import Mathlib

/-!
Verification development for the pyslvs kinematics library
(joint/link data model `VPoint`, the triangulation compiler `t_config`
in `triangulation.pyx`, and the input-editing interface of the BFGS
`SolverSystem` wrapper).

Modelling conventions:
* Python floats are modelled as exact rationals (`ℚ`); the few places the
  source applies transcendental functions (`cos`/`sin` when seeding the
  synthetic slider point, `atan2` in `slope_angle`, `sqrt` in `distance`,
  `π` in degree→radian conversion) are modelled over `ℝ`, or — inside the
  triangulation compiler, where only finitely many values feed exact
  comparisons — by abstract rational-valued parameters `cosA`/`sinA`.
* Python dicts are modelled as insertion-ordered association lists with
  first-occurrence lookup/update, matching dict semantics when keys are
  unique.
* Python set iteration order (hash order) is a deterministic function of
  the set's contents within one interpreter run; where the source draws an
  element from a set (`distance`'s shared-link choice) the model takes that
  choice function as an explicit parameter and proves the claims for every
  choice.
* Paths on which the Python source raises an exception (out-of-range joint
  indices in caller-supplied data, `next` on an empty friend generator
  raising through `PEP 479`) are modelled as no-progress/`none` outcomes;
  no claim below depends on such a path.
-/

/-- Coordinate pair (a Python `(x, y)` tuple of floats). -/
abbrev Pt := ℚ × ℚ

/-- Joint types of `VJoint` (`expression.pxd`): revolute, prismatic,
revolute-prismatic. -/
inductive VJoint where
  | R
  | P
  | RP
deriving DecidableEq, Repr

/-- Model of the `VPoint` extension class (`expression.pyx`).
`c0`/`c1` model the two slots of the `ndarray(2, dtype=object)` field `c`:
for R joints the constructor only fills slot 0 (`c1 = none` models the
`None` left in slot 1). -/
structure VPointM where
  links : List String
  jtype : VJoint
  angle : ℚ
  x : ℚ
  y : ℚ
  c0 : Pt
  c1 : Option Pt
  has_offset : Bool
  offset_val : ℚ
deriving DecidableEq, Repr

/-- `VPoint.c_r_joint links x y`: an R joint; only `c[0]` is set. -/
def VPointM.r_joint (links : List String) (x y : ℚ) : VPointM :=
  { links := links, jtype := .R, angle := 0, x := x, y := y
    c0 := (x, y), c1 := none, has_offset := false, offset_val := 0 }

/-- `VPoint.c_slider_joint links type angle x y`: a P/RP joint; both slots
of `c` are initialised to `(x, y)`. -/
def VPointM.slider_joint (links : List String) (j : VJoint) (angle : ℚ)
    (x y : ℚ) : VPointM :=
  { links := links, jtype := j, angle := angle, x := x, y := y
    c0 := (x, y), c1 := some (x, y), has_offset := false, offset_val := 0 }

/-- Python's `%` on reals with a fixed positive modulus:
`a % b = a - b * floor(a / b)`. -/
def pymod (a b : ℚ) : ℚ := a - b * ⌊a / b⌋

/-- `VPoint.rotate(angle)`: `self.angle = angle % 180`. -/
def VPointM.rotate (v : VPointM) (angle : ℚ) : VPointM :=
  { v with angle := pymod angle 180 }

/-- `VPoint.is_slot_link(link_name)`. -/
def VPointM.is_slot_link (v : VPointM) (link_name : String) : Bool :=
  if v.jtype = .R then false
  else
    match v.links with
    | [] => false
    | l :: _ => link_name = l

/-- `VPoint.grounded()`. -/
def VPointM.grounded (v : VPointM) : Bool :=
  match v.jtype with
  | .R => v.links.contains ("ground")
  | _ => if v.links.isEmpty then false else v.is_slot_link ("ground")

/-- `VPoint.pin_grounded()`: `'ground' in self.links[1:]`. -/
def VPointM.pin_grounded (v : VPointM) : Bool :=
  v.links.tail.contains ("ground")

/-- `VPoint.no_link()`. -/
def VPointM.no_link (v : VPointM) : Bool := v.links.isEmpty

/-- Indexing `v.c[i]` for `i : ℕ`; slot 1 of an R joint holds `None`
(`none` here), and any index ≥ 2 is an `IndexError` (`none`). -/
def VPointM.cIdx (v : VPointM) (i : ℕ) : Option Pt :=
  if i = 0 then some v.c0 else if i = 1 then v.c1 else none

/-- `hypot` of the C math library over exact inputs. -/
noncomputable def hypotQ (x y : ℚ) : ℝ :=
  Real.sqrt ((x : ℝ) ^ 2 + (y : ℝ) ^ 2)

/-- The set `set(self.links) & set(p.links)` built by `VPoint.distance`. -/
def sharedLinks (a b : VPointM) : Finset String :=
  a.links.toFinset ∩ b.links.toFinset

/-- Endpoint selection of `VPoint.distance`: `c[0]` if the joint is R or its
base link is the chosen shared link, else the pin `c[1]`. -/
def distEnd (v : VPointM) (s : String) : Option Pt :=
  if v.jtype = .R ∨ v.links.headI = s then some v.c0 else v.c1

/-- `VPoint.distance(p)`.  `pick` models the hash-determined first element
`on_links[0]` of the shared-link set (the same function of the set contents
in both argument orders within one run). -/
noncomputable def VPointM.distance (pick : Finset String → String)
    (a b : VPointM) : Option ℝ :=
  if (sharedLinks a b).Nonempty then do
    let m ← distEnd a (pick (sharedLinks a b))
    let p ← distEnd b (pick (sharedLinks a b))
    return hypotQ (p.1 - m.1) (p.2 - m.2)
  else
    some (hypotQ (b.c0.1 - a.c0.1) (b.c0.2 - a.c0.2))

/-- `atan2(y, x)` of the C math library (real semantics). -/
noncomputable def atan2 (y x : ℝ) : ℝ := Complex.arg ⟨x, y⟩

/-- `VPoint.slope_angle(p, num1, num2)` transcribed from the source:
note that both branches that read a current coordinate index it with
`num2` (`self.c[num2]` and `p.c[num2]`), and that the vector measured is
`p - self`. -/
noncomputable def VPointM.slope_angle (v p : VPointM) (num1 num2 : ℕ) :
    Option ℝ := do
  let q2 ← if 1 < num1 then some (v.x, v.y) else v.cIdx num2
  let q1 ← if 1 < num2 then some (p.x, p.y) else p.cIdx num2
  return atan2 ((q1.2 : ℝ) - (q2.2 : ℝ)) ((q1.1 : ℝ) - (q2.1 : ℝ)) /
    Real.pi * 180

/-- Modelled from the spec's words for claim C5: `num1` selects which
endpoint of `self` is used (0 = slot anchor `c[0]`, 1 = pin `c[1]`,
≥ 2 = original `x, y`), `num2` independently selects the endpoint of
`other`, and the result is the angle of the vector from `other` to `self`. -/
noncomputable def slope_angle_claimed (v p : VPointM) (num1 num2 : ℕ) :
    Option ℝ := do
  let me ← if 2 ≤ num1 then some (v.x, v.y) else v.cIdx num1
  let ot ← if 2 ≤ num2 then some (p.x, p.y) else p.cIdx num2
  return atan2 ((me.2 : ℝ) - (ot.2 : ℝ)) ((me.1 : ℝ) - (ot.1 : ℝ)) /
    Real.pi * 180

/-- Endpoint selector for the amended reading of `slope_angle`: original
`x, y` when the selector for *this* joint is ≥ 2, otherwise the coordinate
slot indexed by `num2` (the source indexes both joints' `c` by `num2`). -/
noncomputable def slopeEnd (w : VPointM) (sel num2 : ℕ) : Option Pt :=
  if 2 ≤ sel then some (w.x, w.y) else w.cIdx num2

/-- Amended behaviour of `slope_angle` for claim C5: the angle (in degrees)
of the vector from `self` to `other`, with both coordinate-slot reads
indexed by `num2`. -/
noncomputable def slope_angle_amended (v p : VPointM) (num1 num2 : ℕ) :
    Option ℝ := do
  let me ← slopeEnd v num1 num2
  let ot ← slopeEnd p num2 num2
  return atan2 ((ot.2 : ℝ) - (me.2 : ℝ)) ((ot.1 : ℝ) - (me.1 : ℝ)) /
    Real.pi * 180

/-- `_clockwise(c1, c2, c3)` of `triangulation.pyx`:
`val = (c2y-c1y)(c3x-c2x) - (c2x-c1x)(c3y-c2y); return val == 0 or val > 0`. -/
def clockwiseQ (c1 c2 c3 : Pt) : Bool :=
  let val := (c2.2 - c1.2) * (c3.1 - c2.1) - (c2.1 - c1.1) * (c3.2 - c2.2)
  decide (val = 0) || decide (0 < val)

/-- The standard planar cross product `u × v = u.x · v.y - u.y · v.x`
(modelled from the spec's wording in claim C3). -/
def cross (u v : Pt) : ℚ := u.1 * v.2 - u.2 * v.1

/-- Symbol namespaces of `triangulation.pxd` (`P_LABEL`, `L_LABEL`,
`A_LABEL`, `S_LABEL`). -/
inductive SLabel where
  | P
  | L
  | A
  | S
deriving DecidableEq, Repr

/-- A `sym` (pair of label and index). -/
abbrev TSym := SLabel × ℕ

/-- `symbol_str(p)`. -/
def symbol_str (p : TSym) : String :=
  match p.1 with
  | .P => "P" ++ toString p.2
  | .L => "L" ++ toString p.2
  | .A => "a" ++ toString p.2
  | .S => "S" ++ toString p.2

/-- The tagged construction record `Expr` (a closed sum: the C struct with
its `func` discriminator).  Field order follows the `add_*` methods of
`EStack`. -/
inductive Expr where
  | pla (c1 v1 v2 target : TSym)
  | plap (c1 v1 v2 c2 target : TSym)
  | pllp (c1 v1 v2 c2 target : TSym)
  | plpp (c1 v1 c2 c3 target : TSym) (op : Bool)
  | pxy (c1 v1 v2 target : TSym)
deriving DecidableEq, Repr

/-- One tuple of `EStack.as_list()`; a PLA record is rendered with the tag
`"PLAP"`, exactly like a PLAP record. -/
def renderExpr (e : Expr) : List String :=
  match e with
  | .pla c1 v1 v2 c2 =>
      ["PLAP", symbol_str c1, symbol_str v1, symbol_str v2, symbol_str c2]
  | .plap c1 v1 v2 c2 c3 =>
      ["PLAP", symbol_str c1, symbol_str v1, symbol_str v2, symbol_str c2,
        symbol_str c3]
  | .pllp c1 v1 v2 c2 c3 =>
      ["PLLP", symbol_str c1, symbol_str v1, symbol_str v2, symbol_str c2,
        symbol_str c3]
  | .plpp c1 v1 c2 c3 c4 _ =>
      ["PLPP", symbol_str c1, symbol_str v1, symbol_str c2, symbol_str c3,
        symbol_str c4]
  | .pxy c1 v1 v2 c2 =>
      ["PXY", symbol_str c1, symbol_str v1, symbol_str v2, symbol_str c2]

/-- `EStack.as_list()`: the stack rendered tuple by tuple. -/
def as_list (stack : List Expr) : List (List String) :=
  stack.map renderExpr

/-- Insertion-ordered dict from joint index to solved flag (the `status`
dict of `t_config`). -/
abbrev DictNB := List (ℕ × Bool)

/-- Dict lookup (`status[k]`, `None` on a missing key instead of
`KeyError`). -/
def dget (d : DictNB) (k : ℕ) : Option Bool :=
  (d.find? (fun e => e.1 = k)).map (·.2)

/-- Dict membership (`k in status`). -/
def dmem (d : DictNB) (k : ℕ) : Bool :=
  d.any (fun e => e.1 = k)

/-- Dict update `status[k] = v`: overwrite the first binding of `k`
in place, else append (dict insertion order). -/
def dset (d : DictNB) (k : ℕ) (v : Bool) : DictNB :=
  match d with
  | [] => [(k, v)]
  | (k', v') :: rest =>
      if k' = k then (k, v) :: rest else (k', v') :: dset rest k v

/-- `_is_all_lock(status)`. -/
def allLock (d : DictNB) : Bool := d.all (·.2)

/-- Number of unsolved entries (used as the head of the sweep's
termination measure). -/
def countFalse (d : DictNB) : ℕ := (d.filter (fun e => !e.2)).length

/-- Insertion-ordered dict from link name to its (insertion-ordered) set of
joint indices (the `vlinks` dict of `t_config`). -/
abbrev VLinksT := List (String × List ℕ)

/-- `vlinks[link]` (empty on a missing key instead of `KeyError`). -/
def vget (vl : VLinksT) (k : String) : List ℕ :=
  ((vl.find? (fun e => e.1 = k)).map (·.2)).getD []

/-- Add `n` to the set `vlinks[k]`, creating the entry if needed. -/
def vadd (vl : VLinksT) (k : String) (n : ℕ) : VLinksT :=
  match vl with
  | [] => [(k, [n])]
  | (k', ns) :: rest =>
      if k' = k then (k', if ns.contains n then ns else ns ++ [n]) :: rest
      else (k', ns) :: vadd rest k n

/-- Status/vlinks initialisation of `t_config` (lines 247–263): each joint
starts unsolved unless it is linkless or a grounded R joint. -/
def initStatus (vpoints : List VPointM) (st : DictNB) : DictNB :=
  vpoints.enum.foldl
    (fun s nv =>
      dset s nv.1
        (nv.2.links.isEmpty ||
          (decide (nv.2.jtype = VJoint.R) && nv.2.links.contains ("ground"))))
    st

/-- The `vlinks` adjacency dict of `t_config`, built from the *original*
joint list (it is not updated by the P→RP rewrite). -/
def buildVLinks (vpoints : List VPointM) : VLinksT :=
  vpoints.enum.foldl
    (fun vl nv => nv.2.links.foldl (fun acc link => vadd acc link nv.1) vl)
    []

/-- The RP joint a grounded P joint's R-friend is rewritten into
(lines 280–289): slot link of the driving P first, then the friend's links
minus the P joint's links, adopting the P joint's angle. -/
def rewriteNode (bp np : VPointM) : VPointM :=
  VPointM.slider_joint
    (bp.links.headI :: np.links.filter (fun l => !bp.links.contains l))
    .RP bp.angle np.x np.y

/-- The P→RP promotion sweep of `t_config` (lines 265–289). -/
def promote (vlinks : VLinksT) (vpoints0 : List VPointM) : List VPointM :=
  (List.range vpoints0.length).foldl
    (fun vps base =>
      match vps[base]? with
      | none => vps
      | some bp =>
        if bp.jtype = VJoint.P ∧ bp.grounded = true then
          bp.links.tail.foldl
            (fun acc link =>
              (vget vlinks link).foldl
                (fun acc2 node =>
                  if node = base then acc2
                  else
                    match acc2[node]? with
                    | some np =>
                        if np.jtype = VJoint.R then
                          acc2.set node (rewriteNode bp np)
                        else acc2
                    | none => acc2)
                acc)
            vps
        else vps)
    vpoints0

/-- The seed positions `pos` (lines 291–294): `c[0]` for R joints, the pin
`c[1]` otherwise. -/
def buildPos (vpoints : List VPointM) : List Pt :=
  vpoints.map (fun v => if v.jtype = VJoint.R then v.c0 else v.c1.getD (0, 0))

/-- One driver-emission step (lines 301–311): when the base joint is
already solved, emit `PLA(base, L, a, node)` and mark the node solved. -/
def driverStep (acc : DictNB × List Expr × ℕ × ℕ) (bn : ℕ × ℕ) :
    DictNB × List Expr × ℕ × ℕ :=
  let (st, es, ls, asy) := acc
  if (dget st bn.1).getD false then
    (dset st bn.2 true,
      es ++ [Expr.pla (SLabel.P, bn.1) (SLabel.L, ls) (SLabel.A, asy)
        (SLabel.P, bn.2)],
      ls + 1, asy + 1)
  else acc

/-- The driver-emission pass over all input pairs. -/
def driverPhase (inputs : List (ℕ × ℕ)) (st : DictNB) :
    DictNB × List Expr × ℕ × ℕ :=
  inputs.foldl driverStep (st, [], 0, 0)

/-- `_get_input_base(node, inputs)`: the first base paired with `node`
(`none` models the `-1` not-found result). -/
def inputBase (inputs : List (ℕ × ℕ)) (node : ℕ) : Option ℕ :=
  (inputs.find? (fun bn => bn.2 = node)).map (·.1)

/-- Membership in the `input_targets` set. -/
def isInputTarget (inputs : List (ℕ × ℕ)) (node : ℕ) : Bool :=
  inputs.any (fun bn => bn.2 = node)

/-- `_get_reliable_friend(node, ...)` as the full yielded sequence: for each
link of the node carrying at least two joints, the solved joints other than
the node itself, in insertion order. -/
def reliableFriends (vpoints : List VPointM) (vlinks : VLinksT)
    (status : DictNB) (node : ℕ) : List ℕ :=
  match vpoints[node]? with
  | none => []
  | some v =>
      v.links.foldr
        (fun link acc =>
          (if (vget vlinks link).length < 2 then []
            else
              (vget vlinks link).filter
                (fun f => (dget status f).getD false && f != node)) ++ acc)
        []

/-- `_get_not_base_friend(node, ...)` as the full yielded sequence: solved
joints of `links[1]` (empty when the node has fewer than two links). -/
def notBaseFriends (vpoints : List VPointM) (vlinks : VLinksT)
    (status : DictNB) (node : ℕ) : List ℕ :=
  match vpoints[node]? with
  | none => []
  | some v =>
      if v.links.length < 2 then []
      else (vget vlinks v.links.tail.headI).filter
        (fun f => (dget status f).getD false)

/-- `_get_base_friend(node, ...)` as the full yielded sequence: every joint
of `links[0]`, solved or not. -/
def baseFriends (vpoints : List VPointM) (vlinks : VLinksT) (node : ℕ) :
    List ℕ :=
  match vpoints[node]? with
  | none => []
  | some v =>
      if v.links.length < 1 then [] else vget vlinks v.links.headI

/-- Static context of the main sweep of `t_config`.  `cosA`/`sinA` model
the float values `cos(angle/180*π)` and `sin(angle/180*π)` used to seed the
synthetic slot-end point (floats are rationals; the claims hold for every
choice of these functions). -/
structure TCtx where
  vpoints : List VPointM
  vlinks : VLinksT
  pos : List Pt
  inputs : List (ℕ × ℕ)
  cosA : ℚ → ℚ
  sinA : ℚ → ℚ

/-- `pos[k]` (in-range on every path actually reached by the source). -/
def posAt (ctx : TCtx) (k : ℕ) : Pt := ctx.pos.getD k (0, 0)

/-- Mutable state of the main sweep: the status dict, the emitted stack,
the two symbol counters, the scan position, the no-progress counter, and
the loop bound `around` (fixed at `len(status)` when the sweep starts). -/
structure LoopState where
  status : DictNB
  exprs : List Expr
  lsym : ℕ
  asym : ℕ
  node : ℕ
  skip : ℕ
  around : ℕ
deriving DecidableEq, Repr

/-- A no-progress step: `skip_times += 1` and move to the next joint. -/
def skipState (s : LoopState) : LoopState :=
  { s with node := s.node + 1, skip := s.skip + 1 }

/-- One step of the P-branch friend propagation (lines 396–407): emit
`PXY(node, L, L+1, fb)` for an unsolved friend and mark it solved. -/
def propNode (n : ℕ) (acc : DictNB × List Expr × ℕ) (fb : ℕ) :
    DictNB × List Expr × ℕ :=
  let (st, es, ls) := acc
  if (dget st fb).getD false then acc
  else
    (dset st fb true,
      es ++ [Expr.pxy (SLabel.P, n) (SLabel.L, ls) (SLabel.L, ls + 1)
        (SLabel.P, fb)],
      ls + 2)

/-- Propagation over one pin link's joints. -/
def propLink (vl : VLinksT) (n : ℕ) (acc : DictNB × List Expr × ℕ)
    (link : String) : DictNB × List Expr × ℕ :=
  (vget vl link).foldl (propNode n) acc

/-- Propagation over all pin links of a solved grounded P joint. -/
def propagate (vl : VLinksT) (n : ℕ) (links : List String)
    (acc : DictNB × List Expr × ℕ) : DictNB × List Expr × ℕ :=
  links.foldl (propLink vl n) acc

/-- Body of the sweep for an unsolved joint `s.node` with record `v`
(lines 333–476 of `triangulation.pyx`); always advances to `node + 1`. -/
def processNode (ctx : TCtx) (s : LoopState) (v : VPointM) : LoopState :=
  let n := s.node
  match v.jtype with
  | .R =>
    if isInputTarget ctx.inputs n then
      match inputBase ctx.inputs n with
      | some b =>
          if (dget s.status b).getD false then
            { s with
              status := dset s.status n true
              exprs := s.exprs ++ [Expr.pla (SLabel.P, b) (SLabel.L, s.lsym)
                (SLabel.A, s.asym) (SLabel.P, n)]
              lsym := s.lsym + 1
              asym := s.asym + 1
              node := n + 1 }
          else skipState s
      | none => skipState s
    else
      match reliableFriends ctx.vpoints ctx.vlinks s.status n with
      | fa0 :: fb0 :: _ =>
          let fab :=
            if clockwiseQ (posAt ctx fa0) (posAt ctx n) (posAt ctx fb0) then
              (fa0, fb0)
            else (fb0, fa0)
          { s with
            status := dset s.status n true
            exprs := s.exprs ++ [Expr.pllp (SLabel.P, fab.1)
              (SLabel.L, s.lsym) (SLabel.L, s.lsym + 1) (SLabel.P, fab.2)
              (SLabel.P, n)]
            lsym := s.lsym + 2
            node := n + 1
            skip := 0 }
      | _ => skipState s
  | .P =>
    if v.pin_grounded || !v.grounded || v.has_offset then skipState s
    else
      match notBaseFriends ctx.vpoints ctx.vlinks s.status n with
      | fa :: _ =>
          let acc0 :=
            (dset s.status n true,
              s.exprs ++ [Expr.pxy (SLabel.P, fa) (SLabel.L, s.lsym)
                (SLabel.L, s.lsym + 1) (SLabel.P, n)],
              s.lsym + 2)
          let acc1 := propagate ctx.vlinks n v.links.tail acc0
          { s with
            status := acc1.1
            exprs := acc1.2.1
            lsym := acc1.2.2
            node := n + 1
            skip := 0 }
      | [] => skipState s
  | .RP =>
    let sx := (posAt ctx n).1 + ctx.cosA v.angle
    let sy := (posAt ctx n).2 + ctx.sinA v.angle
    if v.pin_grounded || !v.grounded || v.has_offset then skipState s
    else
      match notBaseFriends ctx.vpoints ctx.vlinks s.status n,
          baseFriends ctx.vpoints ctx.vlinks n with
      | fa :: _, fb0 :: bfs =>
          -- lines 429–441 are unreachable in the source (`if not grounded`
          -- below a guard that already required grounded); transcribed all
          -- the same
          let step1 : Option (ℕ × List Expr × ℕ) :=
            if !v.grounded then
              match bfs with
              | fd0 :: _ =>
                  let fbd :=
                    if clockwiseQ (posAt ctx fb0) (sx, sy) (posAt ctx fd0)
                    then (fb0, fd0) else (fd0, fb0)
                  some (fbd.1,
                    s.exprs ++ [Expr.pllp (SLabel.P, fbd.1)
                      (SLabel.L, s.lsym) (SLabel.L, s.lsym + 1)
                      (SLabel.P, fbd.2) (SLabel.P, n)],
                    s.lsym + 2)
              | [] => none
            else some (fb0, s.exprs, s.lsym)
          match step1 with
          | none => skipState s
          | some (fb1, es1, ls1) =>
              let fbc :=
                if clockwiseQ (posAt ctx fb1) (sx, sy) (posAt ctx n) then
                  (fb1, n)
                else (n, fb1)
              let op : Bool :=
                decide (0 < (posAt ctx fa).1 - (posAt ctx n).1) !=
                  decide (90 < v.angle)
              { s with
                status := dset s.status n true
                exprs := es1 ++ [Expr.pllp (SLabel.P, fbc.1) (SLabel.L, ls1)
                    (SLabel.L, ls1 + 1) (SLabel.P, fbc.2) (SLabel.S, n),
                  Expr.plpp (SLabel.P, fa) (SLabel.L, ls1 + 2) (SLabel.P, n)
                    (SLabel.S, n) (SLabel.P, n) op]
                lsym := ls1 + 3
                node := n + 1
                skip := 0 }
      | _, _ => skipState s

/-- One iteration of the main sweep's `while` loop (lines 322–476):
`inr` = the loop exits with this state, `inl` = continue.  The `inr` on a
missing key 0 marks a state on which the Python loop would never exit; it
is unreachable from `t_config`, which always creates key 0. -/
def stepLoop (ctx : TCtx) (s : LoopState) : LoopState ⊕ LoopState :=
  if allLock s.status then Sum.inr s
  else if !dmem s.status s.node then
    (if dmem s.status 0 then Sum.inl { s with node := 0 } else Sum.inr s)
  else if s.around ≤ s.skip then Sum.inr s
  else if (dget s.status s.node).getD false then
    Sum.inl { s with node := s.node + 1, skip := s.skip + 1 }
  else
    match ctx.vpoints[s.node]? with
    | none => Sum.inl (skipState s)
    | some v => Sum.inl (processNode ctx s v)

/-- 1 while the scan position is outside the status dict (about to wrap). -/
def wrapFlag (s : LoopState) : ℕ := if dmem s.status s.node then 0 else 1

/-- Termination measure of the sweep: unsolved count, then the remaining
skip budget, then the wrap flag, packed into one natural number (`around`
is constant along the loop). -/
def lmeasure (s : LoopState) : ℕ :=
  countFalse s.status * (2 * s.around + 4) + 2 * (s.around - s.skip) +
    wrapFlag s

/-- The main sweep of `t_config` (lines 313–476): iterate `stepLoop` until
it exits.  Termination is by the packed measure `lmeasure` — every
continuing step either solves a joint, spends one unit of the
`skip_times` budget, or wraps the scan position back to joint 0. -/
def loop (ctx : TCtx) (s : LoopState) : LoopState :=
  match h : stepLoop ctx s with
  | Sum.inr s1 => s1
  | Sum.inl s' => loop ctx s'
termination_by lmeasure s
decreasing_by
    have hsucc : ∀ cf' cf x' y' x y K : ℕ, cf' < cf → x' + y' < K →
        cf' * K + x' + y' < cf * K + x + y := by
      intro cf' cf x' y' x y K h1 h2
      calc cf' * K + x' + y' < cf' * K + K := by omega
        _ = (cf' + 1) * K := by ring
        _ ≤ cf * K := Nat.mul_le_mul_right K h1
        _ ≤ cf * K + x := Nat.le_add_right _ _
        _ ≤ cf * K + x + y := Nat.le_add_right _ _
    have hwf : ∀ t : LoopState, wrapFlag t ≤ 1 := by
      intro t; unfold wrapFlag; split <;> omega
    have hcf_cons : ∀ (a : ℕ) (b : Bool) (t : DictNB),
        countFalse ((a, b) :: t) = (if b then 0 else 1) + countFalse t := by
      intro a b t; cases b <;> simp [countFalse, Nat.add_comm]
    have hdset_cons : ∀ (k' : ℕ) (v' : Bool) (t : DictNB) (k : ℕ) (v : Bool),
        dset ((k', v') :: t) k v =
          if k' = k then (k, v) :: t else (k', v') :: dset t k v := by
      intro k' v' t k v
      by_cases hk : k' = k <;> simp [dset, hk]
    have hdget_cons : ∀ (k' : ℕ) (v' : Bool) (t : DictNB) (k : ℕ),
        dget ((k', v') :: t) k = if k' = k then some v' else dget t k := by
      intro k' v' t k
      by_cases hk : k' = k <;> simp [dget, List.find?, hk]
    have hdset_le : ∀ (d : DictNB) (k : ℕ),
        countFalse (dset d k true) ≤ countFalse d := by
      intro d k; induction d with
      | nil => simp [dset, countFalse]
      | cons e rest ih =>
        obtain ⟨k', v'⟩ := e
        rw [hdset_cons]
        by_cases hk : k' = k
        · rw [if_pos hk]
          rw [hcf_cons, hcf_cons]
          cases v' <;> simp
        · rw [if_neg hk]
          rw [hcf_cons, hcf_cons]
          omega
    have hdset_lt : ∀ (d : DictNB) (k : ℕ), dget d k = some false →
        countFalse (dset d k true) < countFalse d := by
      intro d k hg; induction d with
      | nil => simp [dget, List.find?] at hg
      | cons e rest ih =>
        obtain ⟨k', v'⟩ := e
        rw [hdget_cons] at hg
        rw [hdset_cons]
        by_cases hk : k' = k
        · rw [if_pos hk] at hg
          injection hg with hv
          subst hk hv
          rw [if_pos rfl]
          rw [hcf_cons, hcf_cons]
          simp
        · rw [if_neg hk] at hg
          rw [if_neg hk]
          rw [hcf_cons, hcf_cons]
          have := ih hg
          omega
    have hmem_some : ∀ (d : DictNB) (k : ℕ), dmem d k = true →
        (dget d k).isSome := by
      intro d k hm
      induction d with
      | nil => simp [dmem] at hm
      | cons e rest ih =>
        obtain ⟨k', v'⟩ := e
        rw [hdget_cons]
        by_cases hk : k' = k
        · simp [hk]
        · rw [if_neg hk]
          apply ih
          simpa [dmem, hk] using hm
    have hprop_le : ∀ (links : List String) (acc : DictNB × List Expr × ℕ),
        countFalse (propagate ctx.vlinks s.node links acc).1 ≤
          countFalse acc.1 := by
      have hnode : ∀ (fb : ℕ) (acc : DictNB × List Expr × ℕ),
          countFalse (propNode s.node acc fb).1 ≤ countFalse acc.1 := by
        intro fb acc
        obtain ⟨st, es, ls⟩ := acc
        unfold propNode
        dsimp only
        split
        · exact le_refl _
        · exact hdset_le st fb
      have hfold : ∀ (ns : List ℕ) (acc : DictNB × List Expr × ℕ),
          countFalse ((ns.foldl (propNode s.node) acc)).1 ≤ countFalse acc.1 := by
        intro ns
        induction ns with
        | nil => intro acc; exact le_refl _
        | cons fb rest ih =>
            intro acc
            exact le_trans (ih _) (hnode fb acc)
      intro links
      induction links with
      | nil => intro acc; exact le_refl _
      | cons l rest ih =>
          intro acc
          simp only [propagate, List.foldl]
          exact le_trans (ih _) (hfold _ _)
    -- case analysis over the loop step
    unfold stepLoop at h
    by_cases h1 : allLock s.status = true
    · rw [if_pos h1] at h
      exact absurd h (by simp)
    rw [if_neg h1] at h
    by_cases h2 : (!dmem s.status s.node) = true
    · rw [if_pos h2] at h
      by_cases h3 : dmem s.status 0 = true
      · rw [if_pos h3] at h
        simp only [Sum.inl.injEq] at h
        subst h
        have hnm : dmem s.status s.node = false := by simpa using h2
        simp only [lmeasure, wrapFlag]
        dsimp only
        simp only [h3, hnm, Bool.false_eq_true, if_true, if_false]
        generalize countFalse s.status * (2 * s.around + 4) = A
        omega
      · rw [if_neg h3] at h
        exact absurd h (by simp)
    rw [if_neg h2] at h
    have hmem : dmem s.status s.node = true := by simpa using h2
    by_cases h4 : s.around ≤ s.skip
    · rw [if_pos h4] at h
      exact absurd h (by simp)
    rw [if_neg h4] at h
    have h4' : s.skip < s.around := by omega
    have hwf0 : wrapFlag s = 0 := by simp [wrapFlag, hmem]
    have hskip_lt : ∀ t : LoopState, t.status = s.status →
        t.around = s.around → t.skip = s.skip + 1 →
        lmeasure t < lmeasure s := by
      intro t ht ha hs
      have hw := hwf t
      simp only [lmeasure, ht, ha, hs, hwf0]
      generalize countFalse s.status * (2 * s.around + 4) = A
      omega
    have hsucc_lt : ∀ t : LoopState,
        countFalse t.status < countFalse s.status → t.around = s.around →
        lmeasure t < lmeasure s := by
      intro t hcf ha
      have hw := hwf t
      simp only [lmeasure, ha]
      apply hsucc
      · exact hcf
      · omega
    by_cases h5 : (dget s.status s.node).getD false = true
    · rw [if_pos h5] at h
      simp only [Sum.inl.injEq] at h
      subst h
      exact hskip_lt _ rfl rfl rfl
    rw [if_neg h5] at h
    have hg : dget s.status s.node = some false := by
      have hso := hmem_some _ _ hmem
      cases hval : dget s.status s.node with
      | none => rw [hval] at hso; simp at hso
      | some b =>
          cases b
          · rfl
          · rw [hval] at h5; simp at h5
    split at h
    · simp only [Sum.inl.injEq] at h
      subst h
      exact hskip_lt _ rfl rfl rfl
    · simp only [Sum.inl.injEq] at h
      subst h
      unfold processNode
      dsimp only
      repeat' split
      all_goals first
        | exact hskip_lt _ rfl rfl rfl
        | exact hsucc_lt _ (hdset_lt _ _ hg) rfl
        | exact hsucc_lt _
            (lt_of_le_of_lt (hprop_le _ _) (hdset_lt _ _ hg)) rfl

/-- `t_config(vpoints, inputs, status)` (lines 216–479): early returns,
preprocessing (status/vlinks initialisation, P→RP promotion, seed
positions), driver emission, then the main sweep.  Returns the emitted
stack together with the final status dict (which the source mutates in
place).  `cosA`/`sinA` model the float cosine/sine used for the synthetic
slot-end point. -/
def t_config (vpoints_ : List VPointM) (inputs : List (ℕ × ℕ))
    (status0 : DictNB) (cosA sinA : ℚ → ℚ) : List Expr × DictNB :=
  if vpoints_.isEmpty then ([], status0)
  else if inputs.isEmpty then ([], status0)
  else
    let st1 := initStatus vpoints_ status0
    let vlinks := buildVLinks vpoints_
    let vpoints := promote vlinks vpoints_
    let pos := buildPos vpoints
    let dr := driverPhase inputs st1
    let ctx : TCtx :=
      { vpoints := vpoints, vlinks := vlinks, pos := pos, inputs := inputs,
        cosA := cosA, sinA := sinA }
    let fin := loop ctx
      { status := dr.1, exprs := dr.2.1, lsym := dr.2.2.1, asym := dr.2.2.2,
        node := 0, skip := 0, around := dr.1.length }
    (fin.exprs, fin.status)

/-- Indices of the P-labelled symbols of a list. -/
def pSyms (l : List TSym) : List ℕ :=
  (l.filter (fun t => decide (t.1 = SLabel.P))).map (·.2)

/-- The operand symbols of a construction (the data it reads). -/
def operandSyms (e : Expr) : List TSym :=
  match e with
  | .pla c1 _ _ _ => [c1]
  | .plap c1 _ _ c2 _ => [c1, c2]
  | .pllp c1 _ _ c2 _ => [c1, c2]
  | .plpp c1 _ c2 c3 _ _ => [c1, c2, c3]
  | .pxy c1 _ _ _ => [c1]

/-- The target symbol of a construction (the point it produces). -/
def targetSym (e : Expr) : TSym :=
  match e with
  | .pla _ _ _ t => t
  | .plap _ _ _ _ t => t
  | .pllp _ _ _ _ t => t
  | .plpp _ _ _ _ t _ => t
  | .pxy _ _ _ t => t

/-- The P-labelled (joint) targets of a stack, in emission order. -/
def pTargets (es : List Expr) : List ℕ :=
  es.foldr (fun e acc => pSyms [targetSym e] ++ acc) []

/-- The S-labelled (synthetic slider anchor) targets of a stack. -/
def sTargetsL (es : List Expr) : List ℕ :=
  es.foldr
    (fun e acc =>
      (if (targetSym e).1 = SLabel.S then [(targetSym e).2] else []) ++ acc)
    []

/-- The operand condition exactly as claim C1 states it: every operand
point symbol is an input-driver point or the P-target of an earlier
construction in the stack. -/
def operandOK_claim (drivers : List ℕ) : List Expr → List ℕ → Bool
  | [], _ => true
  | e :: rest, solved =>
      (pSyms (operandSyms e)).all
        (fun b => decide (b ∈ drivers) || decide (b ∈ solved)) &&
      operandOK_claim drivers rest (solved ++ pSyms [targetSym e])

/-- Amended per-construction operand condition: P operands must be solved,
except in the two constructions of the RP branch — the synthetic-S `PLLP`
(whose operands include the still-unsolved RP joint itself and an
arbitrary member of the grounded slot link) and the `PLPP` operand that is
the construction's own target; an S operand must be the S-target of an
earlier construction. -/
def opsOKAmended (e : Expr) (sp ss : List ℕ) : Bool :=
  match e with
  | .pla c1 _ _ _ => (pSyms [c1]).all (fun b => decide (b ∈ sp))
  | .plap c1 _ _ c2 _ => (pSyms [c1, c2]).all (fun b => decide (b ∈ sp))
  | .pllp c1 _ _ c2 t =>
      if t.1 = SLabel.S then true
      else (pSyms [c1, c2]).all (fun b => decide (b ∈ sp))
  | .plpp c1 _ c2 c3 t _ =>
      (pSyms [c1]).all (fun b => decide (b ∈ sp)) &&
      (decide (c2 = t) || (pSyms [c2]).all (fun b => decide (b ∈ sp))) &&
      (if c3.1 = SLabel.S then decide (c3.2 ∈ ss) else true)
  | .pxy c1 _ _ _ => (pSyms [c1]).all (fun b => decide (b ∈ sp))

/-- Walk a stack checking `opsOKAmended` at every position, accumulating
solved P-targets into `sp` and S-targets into `ss` immediately after each
construction. -/
def stackOK : List Expr → List ℕ → List ℕ → Bool
  | [], _, _ => true
  | e :: rest, sp, ss =>
      opsOKAmended e sp ss &&
      stackOK rest (sp ++ pSyms [targetSym e])
        (ss ++ (if (targetSym e).1 = SLabel.S then [(targetSym e).2] else []))

/-- Keys of the status dict carrying `True` (the joints solved before any
construction runs, when taken of the initial status). -/
def trueKeys (d : DictNB) : List ℕ :=
  (d.filter (·.2)).map (·.1)

/-- The loop invariant behind claims C1/C2: the stack emitted so far passes
the amended soundness check against the initial solved set, and a joint is
marked solved in the status dict exactly when it started solved or is the
P-target of an emitted construction. -/
def InvC1 (st1 : DictNB) (s : LoopState) : Prop :=
  stackOK s.exprs (trueKeys st1) [] = true ∧
  ∀ k, dget s.status k = some true ↔
    (dget st1 k = some true ∨ k ∈ pTargets s.exprs)

/-- `_radians(degree)` of the solver wrapper. -/
noncomputable def radiansQ (d : ℚ) : ℝ := (d : ℝ) / 180 * Real.pi

/-- The `inputs_angle` pool created by `build_expression` (lines 764–774):
one radian entry per input pair with distinct endpoints, in dict iteration
order. -/
noncomputable def anglesOf (inputs : List ((ℕ × ℕ) × ℚ)) : List ℝ :=
  (inputs.filter (fun p => p.1.1 != p.1.2)).map (fun p => radiansQ p.2)

/-- The part of `SolverSystem`'s state that `set_inputs` touches: the
`inputs` dict (insertion-ordered, degree values) and the radian pool the
driver angle constraints point into. -/
structure SolverInputs where
  inputs : List ((ℕ × ℕ) × ℚ)
  inputs_angle : List ℝ

/-- A `SolverSystem` built with a declared input dict. -/
noncomputable def build_inputs (inputs : List ((ℕ × ℕ) × ℚ)) :
    SolverInputs :=
  { inputs := inputs, inputs_angle := anglesOf inputs }

/-- `self.inputs.update(new)` when every key of `new` already exists:
values are overwritten in place, insertion order is unchanged. -/
def updateVals (old new : List ((ℕ × ℕ) × ℚ)) : List ((ℕ × ℕ) × ℚ) :=
  old.map
    (fun kv =>
      (kv.1, ((new.find? (fun p => p.1 = kv.1)).map (·.2)).getD kv.2))

/-- `show_inputs() >= set(inputs)`: every key of `new` was declared. -/
def keysSub (new old : List ((ℕ × ℕ) × ℚ)) : Bool :=
  new.all (fun p => old.any (fun q => q.1 = p.1))

/-- `SolverSystem.set_inputs(new)` (lines 776–794): reject keys outside the
declared input set (`none` models the raised `ValueError`), else merge and
rewrite the radian pool in dict iteration order (for a built system the
in-place walk rewrites exactly the pool entries, so the pool equals the
pool of a fresh build on the merged dict). -/
noncomputable def set_inputs (st : SolverInputs)
    (new : List ((ℕ × ℕ) × ℚ)) : Option SolverInputs :=
  if keysSub new st.inputs then
    some { inputs := updateVals st.inputs new
           inputs_angle := anglesOf (updateVals st.inputs new) }
  else none

/-- `SolverSystem.same_points(vpoints_)` (lines 486–494): walk the argument
list only, comparing link tuples against the stored joint at the same
index; `none` models the `IndexError` raised when the argument is longer
than the stored list. -/
def same_points : List VPointM → List VPointM → Option Bool
  | _, [] => some true
  | stored, p :: ps =>
      match stored with
      | [] => none
      | q :: qs => if p.links = q.links then same_points qs ps
                   else some false

/-! ## Theorems -/

/-- C7: for every VPoint `v` and every real argument `x` (including
negative values and values at or above 180), after `v.rotate(x)` the
stored angle satisfies `0 ≤ angle < 180` exactly. -/
theorem C7_rotate_angle_range (v : VPointM) (x : ℚ) :
    0 ≤ (v.rotate x).angle ∧ (v.rotate x).angle < 180 := by
  have hx : (v.rotate x).angle = 180 * Int.fract (x / 180) := by
    simp only [VPointM.rotate, pymod, Int.fract]
    ring
  have h0 := Int.fract_nonneg (x / 180)
  have h1 := Int.fract_lt_one (x / 180)
  constructor
  · rw [hx]
    nlinarith
  · rw [hx]
    nlinarith

/-- C5 fails on the code: at `num1 = num2 = 2` with `self` at the origin
and `other` at `(1, 0)` the source returns the angle of the vector from
`self` to `other` (0°), not of the vector from `other` to `self` (180°);
and at `num1 = 0, num2 = 2` the source raises (indexes `c[2]`) instead of
using the slot anchor `c[0]` selected by `num1`. -/
theorem C5_counterexample :
    VPointM.slope_angle (VPointM.r_joint [] 0 0) (VPointM.r_joint [] 1 0)
        2 2 ≠
      slope_angle_claimed (VPointM.r_joint [] 0 0) (VPointM.r_joint [] 1 0)
        2 2 ∧
    VPointM.slope_angle (VPointM.r_joint [] 0 0) (VPointM.r_joint [] 1 0)
        0 2 = none ∧
    slope_angle_claimed (VPointM.r_joint [] 0 0) (VPointM.r_joint [] 1 0)
        0 2 ≠ none := by
  have hone : ({ re := 1, im := 0 } : ℂ) = 1 := by
    apply Complex.ext <;> simp
  have hnegone : ({ re := -1, im := 0 } : ℂ) = -1 := by
    apply Complex.ext <;> simp
  refine ⟨?_, ?_, ?_⟩
  · have e1 : VPointM.slope_angle (VPointM.r_joint [] 0 0)
        (VPointM.r_joint [] 1 0) 2 2 = some 0 := by
      norm_num [VPointM.slope_angle, VPointM.r_joint, atan2]
      left
      rw [hone, Complex.arg_one]
    have e2 : slope_angle_claimed (VPointM.r_joint [] 0 0)
        (VPointM.r_joint [] 1 0) 2 2 = some 180 := by
      norm_num [slope_angle_claimed, VPointM.r_joint, atan2]
      rw [hnegone, Complex.arg_neg_one]
      exact div_self Real.pi_ne_zero
    rw [e1, e2]
    intro hcontra
    rw [Option.some_inj] at hcontra
    norm_num at hcontra
  · norm_num [VPointM.slope_angle, VPointM.r_joint, VPointM.cIdx]
  · norm_num [slope_angle_claimed, VPointM.r_joint, VPointM.cIdx]
    exact Option.some_ne_none _

/-- C5 amended: `slope_angle(other, num1, num2)` returns the degrees of
the vector from `self` to `other` (not `other` to `self`); `num1 ≥ 2`
selects `self`'s original `x, y` but otherwise `self`'s coordinate slot is
indexed by `num2` (not `num1`), and `num2` selects `other`'s endpoint the
same way; out-of-range or unset slots propagate the error. -/
theorem C5_amended (v p : VPointM) (num1 num2 : ℕ) :
    VPointM.slope_angle v p num1 num2 = slope_angle_amended v p num1 num2 := by
  unfold VPointM.slope_angle slope_angle_amended slopeEnd
  by_cases ha : 2 ≤ num1 <;> by_cases hb : 2 ≤ num2 <;>
    simp [ha, hb, (show (1 < num1) = (2 ≤ num1) from rfl),
      (show (1 < num2) = (2 ≤ num2) from rfl)]

/-- Squared components are insensitive to the direction of the difference. -/
theorem hypotQ_swap (x1 y1 x2 y2 : ℚ) :
    hypotQ (x1 - x2) (y1 - y2) = hypotQ (x2 - x1) (y2 - y1) := by
  unfold hypotQ
  congr 1
  push_cast
  ring

/-- A square root is non-negative. -/
theorem hypotQ_nonneg (x y : ℚ) : 0 ≤ hypotQ x y := Real.sqrt_nonneg _

/-- C6: for every pair of VPoints `a` and `b` (of any joint types and any
link memberships, including pairs sharing two or more links, and for every
hash-order choice of the shared link), `distance(a, b)` equals
`distance(b, a)`, and the result is always non-negative. -/
theorem C6_distance_symm_nonneg (pick : Finset String → String)
    (a b : VPointM) :
    VPointM.distance pick a b = VPointM.distance pick b a ∧
    0 ≤ (VPointM.distance pick a b).getD 0 := by
  have hsh : sharedLinks a b = sharedLinks b a := by
    unfold sharedLinks
    exact Finset.inter_comm _ _
  constructor
  · unfold VPointM.distance
    rw [hsh]
    by_cases hne : (sharedLinks b a).Nonempty
    · rw [if_pos hne, if_pos hne]
      cases hma : distEnd a (pick (sharedLinks b a)) with
      | none =>
          cases hmb : distEnd b (pick (sharedLinks b a)) <;>
            simp [hma, hmb]
      | some m =>
          cases hmb : distEnd b (pick (sharedLinks b a)) with
          | none => simp [hma, hmb]
          | some p =>
              simp [hma, hmb]
              rw [hypotQ_swap]
    · rw [if_neg hne, if_neg hne]
      rw [hypotQ_swap]
  · unfold VPointM.distance
    by_cases hne : (sharedLinks a b).Nonempty
    · rw [if_pos hne]
      cases hma : distEnd a (pick (sharedLinks a b)) with
      | none => simp [hma]
      | some m =>
          cases hmb : distEnd b (pick (sharedLinks a b)) with
          | none => simp [hma, hmb]
          | some p => simp [hma, hmb, hypotQ_nonneg]
    · rw [if_neg hne]
      simp [hypotQ_nonneg]

/-- C3 fails on the code: at `c1 = (0,0)`, `c2 = (1,0)`, `c3 = (1,1)` the
cross product of `(c2 - c1)` and `(c3 - c2)` is `1 ≥ 0`, yet `_clockwise`
returns `False` (the source computes the *negated* cross product). -/
theorem C3_counterexample :
    clockwiseQ (0, 0) (1, 0) (1, 1) = false ∧
    0 ≤ cross (((1 : ℚ), (0 : ℚ)) - (0, 0)) ((1, 1) - (1, 0)) := by
  constructor
  · norm_num [clockwiseQ]
  · norm_num [cross, Prod.fst_sub, Prod.snd_sub]

/-- C3 amended: `_clockwise(c1, c2, c3)` returns true iff the cross product
of `(c2 - c1)` and `(c3 - c2)` is *less than or equal to* zero (zero still
counting as clockwise): the source's `val` is the negation of the standard
cross product. -/
theorem C3_amended (c1 c2 c3 : Pt) :
    clockwiseQ c1 c2 c3 = true ↔ cross (c2 - c1) (c3 - c2) ≤ 0 := by
  simp only [clockwiseQ, cross, Prod.fst_sub, Prod.snd_sub,
    Bool.or_eq_true, decide_eq_true_eq]
  constructor
  · rintro (h | h) <;> nlinarith [h]
  · intro h
    rcases eq_or_lt_of_le
        (show (0 : ℚ) ≤ (c2.2 - c1.2) * (c3.1 - c2.1) -
          (c2.1 - c1.1) * (c3.2 - c2.2) by nlinarith [h]) with he | hl
    · left
      exact he.symm
    · right
      exact hl

/-- C8: `as_list()` renders every PLA record as a tuple whose tag string is
`"PLAP"` followed by exactly 4 symbol strings, and every true PLAP record
as the same tag `"PLAP"` followed by exactly 5 symbol strings, so the two
record kinds are distinguishable in the output only by arity. -/
theorem C8_as_list_pla_plap (es : List Expr) (i : ℕ) :
    (∀ c1 v1 v2 t, es[i]? = some (Expr.pla c1 v1 v2 t) →
      (as_list es)[i]? = some ["PLAP", symbol_str c1, symbol_str v1,
        symbol_str v2, symbol_str t]) ∧
    (∀ c1 v1 v2 c2 t, es[i]? = some (Expr.plap c1 v1 v2 c2 t) →
      (as_list es)[i]? = some ["PLAP", symbol_str c1, symbol_str v1,
        symbol_str v2, symbol_str c2, symbol_str t]) := by
  constructor
  · intro c1 v1 v2 t h
    simp [as_list, List.getElem?_map, h, renderExpr]
  · intro c1 v1 v2 c2 t h
    simp [as_list, List.getElem?_map, h, renderExpr]

/-- Witness for C8 at a concrete two-record stack. -/
theorem C8_witness :
    (as_list [Expr.pla (SLabel.P, 0) (SLabel.L, 0) (SLabel.A, 0)
        (SLabel.P, 1),
      Expr.plap (SLabel.P, 0) (SLabel.L, 1) (SLabel.A, 1) (SLabel.P, 1)
        (SLabel.P, 2)])[1]? =
      some ["PLAP", symbol_str (SLabel.P, 0), symbol_str (SLabel.L, 1),
        symbol_str (SLabel.A, 1), symbol_str (SLabel.P, 1),
        symbol_str (SLabel.P, 2)] :=
  (C8_as_list_pla_plap _ 1).2 _ _ _ _ _ rfl

/-- C4: for a SolverSystem built with a declared input dict, `set_inputs`
fails (`none`, the raised *UnsupportedEdit* `ValueError`) whenever some key
of the new dict lies outside the originally declared pairs, and succeeds
otherwise, overwriting the declared values and rewriting the radian pool in
iteration order; in particular building with `{(0,1): 0}` and calling
`set_inputs({(0,2): 0})` fails. -/
theorem C4_set_inputs (orig new : List ((ℕ × ℕ) × ℚ)) :
    (keysSub new orig = false →
      set_inputs (build_inputs orig) new = none) ∧
    (keysSub new orig = true →
      set_inputs (build_inputs orig) new =
        some { inputs := updateVals orig new
               inputs_angle := anglesOf (updateVals orig new) }) ∧
    set_inputs (build_inputs [((0, 1), 0)]) [((0, 2), 0)] = none := by
  refine ⟨?_, ?_, ?_⟩
  · intro h
    unfold set_inputs build_inputs
    simp [h]
  · intro h
    unfold set_inputs build_inputs
    simp [h]
  · unfold set_inputs build_inputs
    have h : keysSub [((0, 2), (0 : ℚ))] [((0, 1), (0 : ℚ))] = false := by
      simp [keysSub]
    simp [h]

/-- Witness for C4: the rejected edit of scenario S5. -/
theorem C4_witness :
    keysSub [((0, 2), (0 : ℚ))] [((0, 1), (0 : ℚ))] = false ∧
    set_inputs (build_inputs [((0, 1), 0)]) [((0, 2), 0)] = none :=
  ⟨by simp [keysSub], (C4_set_inputs [((0, 1), 0)] [((0, 2), 0)]).1
    (by simp [keysSub])⟩

/-- C10: `same_points(vs)` iterates only over the argument list: whenever
the argument is no longer than the stored list, it returns `True` exactly
when every argument joint's link tuple matches the stored joint at the
same index — trailing stored joints and coordinates are never examined. -/
theorem C10_same_points (stored vs : List VPointM)
    (h : vs.length ≤ stored.length) :
    same_points stored vs = some true ↔
      ∀ i (hi : i < vs.length),
        (vs.get ⟨i, hi⟩).links =
          (stored.get ⟨i, Nat.lt_of_lt_of_le hi h⟩).links := by
  induction vs generalizing stored with
  | nil => simp [same_points]
  | cons p ps ih =>
      cases stored with
      | nil => simp at h
      | cons q qs =>
          have h' : ps.length ≤ qs.length := by
            simpa using h
          by_cases hpq : p.links = q.links
          · rw [show same_points (q :: qs) (p :: ps) =
                same_points qs ps from by simp [same_points, hpq]]
            rw [ih qs h']
            constructor
            · intro hall i hi
              cases i with
              | zero => simpa using hpq
              | succ j =>
                  have hj : j < ps.length := by simpa using hi
                  simpa using hall j hj
            · intro hall i hi
              have := hall (i + 1) (by simpa using hi)
              simpa using this
          · rw [show same_points (q :: qs) (p :: ps) = some false from by
              simp [same_points, hpq]]
            constructor
            · intro hc
              exact absurd (Option.some_inj.mp hc) (by simp)
            · intro hall
              exact absurd (by simpa using hall 0 (by simp)) hpq

/-- Witness for C10: a strictly shorter argument list with different
coordinates still compares `True` on link tuples alone. -/
theorem C10_witness :
    same_points
      [VPointM.r_joint ["a"] 0 0, VPointM.r_joint ["b"] 0 0]
      [VPointM.r_joint ["a"] 5 5] = some true :=
  (C10_same_points _ _ (by norm_num)).mpr (by
    intro i hi
    match i with
    | 0 => rfl
    | j + 1 => exact absurd hi (by simp))

/-- C9: if the vpoints sequence is empty, or the inputs sequence is empty
(the source first replaces a `None` inputs with `()`), `t_config` returns
an empty stack and leaves the caller-supplied status mapping completely
unmodified, because the early return happens before status is populated. -/
theorem C9_early_return (vp : List VPointM) (inputs : List (ℕ × ℕ))
    (st : DictNB) (cA sA : ℚ → ℚ) (h : vp = [] ∨ inputs = []) :
    t_config vp inputs st cA sA = ([], st) := by
  rcases h with h | h
  · subst h
    simp [t_config]
  · subst h
    unfold t_config
    rcases vp with _ | ⟨v, vs⟩ <;> simp

/-- Witness for C9: a caller-supplied status entry survives untouched. -/
theorem C9_witness :
    t_config [] [(0, 1)] [(5, true)] (fun _ => 0) (fun _ => 0) =
      ([], [(5, true)]) :=
  C9_early_return [] [(0, 1)] [(5, true)] (fun _ => 0) (fun _ => 0)
    (Or.inl rfl)

/-- Unfolding the sweep at an exiting step. -/
theorem loop_inr (ctx : TCtx) (s s1 : LoopState)
    (h : stepLoop ctx s = Sum.inr s1) : loop ctx s = s1 := by
  rw [loop.eq_def]
  split
  · rename_i s2 heq
    rw [h] at heq
    exact (Sum.inr.injEq _ _).mp heq.symm
  · rename_i s2 heq
    rw [h] at heq
    exact absurd heq (by simp)

/-- Unfolding the sweep at a continuing step. -/
theorem loop_inl (ctx : TCtx) (s s' : LoopState)
    (h : stepLoop ctx s = Sum.inl s') : loop ctx s = loop ctx s' := by
  rw [loop.eq_def]
  split
  · rename_i s2 heq
    rw [h] at heq
    exact absurd heq (by simp)
  · rename_i s2 heq
    rw [h] at heq
    rw [(Sum.inl.injEq _ _).mp heq]

theorem dget_dset (d : DictNB) (k k' : ℕ) (v : Bool) :
    dget (dset d k v) k' = if k = k' then some v else dget d k' := by
  induction d with
  | nil =>
      by_cases hk : k = k' <;> simp [dset, dget, List.find?, hk]
  | cons e rest ih =>
      obtain ⟨a, b⟩ := e
      by_cases ha : a = k
      · subst ha
        by_cases hk : a = k' <;>
          simp [dset, dget, List.find?, hk]
      · by_cases hk : a = k'
        · subst hk
          have hkk : ¬ k = a := fun hc => ha hc.symm
          simp [dset, ha, dget, List.find?, hkk]
        · simp only [dset, if_neg ha]
          by_cases hkk : k = k'
          · subst hkk
            simp [dget, List.find?, hk] at ih ⊢
            simpa [hk] using ih
          · simp [dget, List.find?, hk] at ih ⊢
            simpa [hk] using ih

theorem dmem_isSome (d : DictNB) (k : ℕ) :
    dmem d k = (dget d k).isSome := by
  induction d with
  | nil => simp [dmem, dget, List.find?]
  | cons e rest ih =>
      obtain ⟨a, b⟩ := e
      by_cases ha : a = k <;> simp [dmem, dget, List.find?, ha] at ih ⊢ <;>
        exact ih

theorem dmem_dset_mono (d : DictNB) (k j : ℕ) (v : Bool)
    (hj : dmem d j = true) : dmem (dset d k v) j = true := by
  rw [dmem_isSome] at hj ⊢
  rw [dget_dset]
  by_cases hk : k = j <;> simp [hk, hj]

theorem propNode_dmem_mono (n : ℕ) (acc : DictNB × List Expr × ℕ) (fb j : ℕ)
    (hj : dmem acc.1 j = true) : dmem (propNode n acc fb).1 j = true := by
  obtain ⟨st, es, ls⟩ := acc
  unfold propNode
  dsimp only
  split
  · exact hj
  · exact dmem_dset_mono _ _ _ _ hj

theorem propagate_dmem_mono (vl : VLinksT) (n : ℕ) (links : List String)
    (acc : DictNB × List Expr × ℕ) (j : ℕ) (hj : dmem acc.1 j = true) :
    dmem (propagate vl n links acc).1 j = true := by
  induction links generalizing acc with
  | nil => exact hj
  | cons l rest ih =>
      simp only [propagate, List.foldl]
      have hone : ∀ (ns : List ℕ) (acc2 : DictNB × List Expr × ℕ),
          dmem acc2.1 j = true →
          dmem (ns.foldl (propNode n) acc2).1 j = true := by
        intro ns
        induction ns with
        | nil => intro acc2 hacc; exact hacc
        | cons fb tl ihn =>
            intro acc2 hacc
            exact ihn _ (propNode_dmem_mono n acc2 fb j hacc)
      exact ih _ (hone _ _ hj)

/-- An exiting step returns the state unchanged, and only when everything
is solved, the skip budget is exhausted, or the (unreachable from
`t_config`) status dict without key 0 would make the Python loop spin. -/
theorem stepLoop_inr_cases (ctx : TCtx) (s s1 : LoopState)
    (h : stepLoop ctx s = Sum.inr s1) :
    s1 = s ∧ (allLock s.status = true ∨ dmem s.status 0 = false ∨
      s.around ≤ s.skip) := by
  unfold stepLoop at h
  by_cases h1 : allLock s.status = true
  · rw [if_pos h1] at h
    injection h with h'
    exact ⟨h'.symm, Or.inl h1⟩
  rw [if_neg h1] at h
  by_cases h2 : (!dmem s.status s.node) = true
  · rw [if_pos h2] at h
    by_cases h3 : dmem s.status 0 = true
    · rw [if_pos h3] at h
      exact absurd h (by simp)
    · rw [if_neg h3] at h
      injection h with h'
      exact ⟨h'.symm, Or.inr (Or.inl (by simpa using h3))⟩
  rw [if_neg h2] at h
  by_cases h4 : s.around ≤ s.skip
  · rw [if_pos h4] at h
    injection h with h'
    exact ⟨h'.symm, Or.inr (Or.inr h4)⟩
  rw [if_neg h4] at h
  by_cases h5 : (dget s.status s.node).getD false = true
  · rw [if_pos h5] at h
    exact absurd h (by simp)
  rw [if_neg h5] at h
  split at h
  · exact absurd h (by simp)
  · exact absurd h (by simp)

/-- A continuing step never deletes a status key. -/
theorem stepLoop_status_mono (ctx : TCtx) (s s' : LoopState)
    (h : stepLoop ctx s = Sum.inl s') (j : ℕ)
    (hj : dmem s.status j = true) : dmem s'.status j = true := by
  unfold stepLoop at h
  by_cases h1 : allLock s.status = true
  · rw [if_pos h1] at h
    exact absurd h (by simp)
  rw [if_neg h1] at h
  by_cases h2 : (!dmem s.status s.node) = true
  · rw [if_pos h2] at h
    by_cases h3 : dmem s.status 0 = true
    · rw [if_pos h3] at h
      simp only [Sum.inl.injEq] at h
      subst h
      exact hj
    · rw [if_neg h3] at h
      exact absurd h (by simp)
  rw [if_neg h2] at h
  by_cases h4 : s.around ≤ s.skip
  · rw [if_pos h4] at h
    exact absurd h (by simp)
  rw [if_neg h4] at h
  by_cases h5 : (dget s.status s.node).getD false = true
  · rw [if_pos h5] at h
    simp only [Sum.inl.injEq] at h
    subst h
    exact hj
  rw [if_neg h5] at h
  split at h
  · simp only [Sum.inl.injEq] at h
    subst h
    exact hj
  · simp only [Sum.inl.injEq] at h
    subst h
    unfold processNode
    dsimp only
    repeat' split
    all_goals first
      | exact hj
      | exact dmem_dset_mono _ _ _ _ hj
      | exact propagate_dmem_mono _ _ _ _ _ (dmem_dset_mono _ _ _ _ hj)

/-- C2: the main sweep of `t_config` terminates for every finite joint list
and input set (`loop` is a total function by the `lmeasure` argument), and
it exits exactly with all joints solved or with the `skip_times` counter
having reached the loop bound `around = len(status)` taken at sweep start. -/
theorem C2_sweep_termination (ctx : TCtx) (s : LoopState)
    (h0 : dmem s.status 0 = true) :
    allLock (loop ctx s).status = true ∨
      (loop ctx s).around ≤ (loop ctx s).skip := by
  revert h0
  induction s using loop.induct ctx with
  | case1 x s1 heq =>
      intro h0
      rw [loop_inr ctx x s1 heq]
      obtain ⟨rfl, hdisj⟩ := stepLoop_inr_cases ctx x s1 heq
      rcases hdisj with hA | hB | hC
      · exact Or.inl hA
      · rw [h0] at hB
        exact absurd hB (by simp)
      · exact Or.inr hC
  | case2 x s' heq ih =>
      intro h0
      rw [loop_inl ctx x s' heq]
      exact ih (stepLoop_status_mono ctx x s' heq 0 h0)

/-- Witness for C2 at a one-joint solved status. -/
theorem C2_witness :
    dmem [(0, true)] 0 = true ∧
    (allLock (loop
        { vpoints := [], vlinks := [], pos := [], inputs := [],
          cosA := fun _ => 0, sinA := fun _ => 0 }
        { status := [(0, true)], exprs := [], lsym := 0, asym := 0,
          node := 0, skip := 0, around := 1 }).status = true ∨
      (loop
        { vpoints := [], vlinks := [], pos := [], inputs := [],
          cosA := fun _ => 0, sinA := fun _ => 0 }
        { status := [(0, true)], exprs := [], lsym := 0, asym := 0,
          node := 0, skip := 0, around := 1 }).around ≤
      (loop
        { vpoints := [], vlinks := [], pos := [], inputs := [],
          cosA := fun _ => 0, sinA := fun _ => 0 }
        { status := [(0, true)], exprs := [], lsym := 0, asym := 0,
          node := 0, skip := 0, around := 1 }).skip) :=
  ⟨by decide, C2_sweep_termination _ _ (by decide)⟩

theorem pTargets_append (a b : List Expr) :
    pTargets (a ++ b) = pTargets a ++ pTargets b := by
  induction a with
  | nil => simp [pTargets]
  | cons e rest ih => simp [pTargets, List.foldr] at ih ⊢; rw [ih]

theorem sTargetsL_append (a b : List Expr) :
    sTargetsL (a ++ b) = sTargetsL a ++ sTargetsL b := by
  induction a with
  | nil => simp [sTargetsL]
  | cons e rest ih => simp [sTargetsL, List.foldr] at ih ⊢; rw [ih]

theorem stackOK_append (a b : List Expr) (sp ss : List ℕ) :
    stackOK (a ++ b) sp ss =
      (stackOK a sp ss &&
        stackOK b (sp ++ pTargets a) (ss ++ sTargetsL a)) := by
  induction a generalizing sp ss with
  | nil => simp [stackOK, pTargets, sTargetsL]
  | cons e rest ih =>
      simp only [List.cons_append, stackOK]
      rw [show rest.append b = rest ++ b from rfl, ih]
      simp [pTargets, sTargetsL, List.append_assoc, Bool.and_assoc]

theorem dget_cons (a : ℕ) (b : Bool) (t : DictNB) (k : ℕ) :
    dget ((a, b) :: t) k = if a = k then some b else dget t k := by
  by_cases ha : a = k <;> simp [dget, List.find?, ha]

theorem trueKeys_mem (d : DictNB) (k : ℕ) (h : dget d k = some true) :
    k ∈ trueKeys d := by
  induction d with
  | nil => simp [dget, List.find?] at h
  | cons e rest ih =>
      obtain ⟨a, b⟩ := e
      rw [dget_cons] at h
      by_cases ha : a = k
      · rw [if_pos ha] at h
        injection h with hb
        subst ha
        subst hb
        simp [trueKeys]
      · rw [if_neg ha] at h
        have hmem := ih h
        unfold trueKeys at hmem ⊢
        cases b
        · simpa using hmem
        · simpa using Or.inr hmem

theorem dget_getD_true (d : DictNB) (k : ℕ)
    (h : (dget d k).getD false = true) : dget d k = some true := by
  cases hd : dget d k with
  | none => rw [hd] at h; simp at h
  | some b => rw [hd] at h; simp at h; rw [h]

theorem friendFoldr_solved (vl : VLinksT) (st : DictNB) (node : ℕ)
    (L : List String) (f : ℕ)
    (hf : f ∈ L.foldr
      (fun link acc =>
        (if (vget vl link).length < 2 then []
          else (vget vl link).filter
            (fun g => (dget st g).getD false && g != node)) ++ acc)
      []) :
    dget st f = some true := by
  induction L with
  | nil => simp at hf
  | cons l ls ih =>
      simp only [List.foldr] at hf
      rcases List.mem_append.mp hf with hl | hr
      · by_cases hlen : (vget vl l).length < 2
        · rw [if_pos hlen] at hl
          simp at hl
        · rw [if_neg hlen] at hl
          have hp := (List.mem_filter.mp hl).2
          simp only [Bool.and_eq_true] at hp
          exact dget_getD_true _ _ hp.1
      · exact ih hr

theorem reliableFriends_solved (vp : List VPointM) (vl : VLinksT)
    (st : DictNB) (node f : ℕ)
    (hf : f ∈ reliableFriends vp vl st node) : dget st f = some true := by
  unfold reliableFriends at hf
  cases hv : vp[node]? with
  | none => rw [hv] at hf; simp at hf
  | some v =>
      simp only [hv] at hf
      exact friendFoldr_solved vl st node v.links f hf

theorem notBaseFriends_solved (vp : List VPointM) (vl : VLinksT)
    (st : DictNB) (node f : ℕ)
    (hf : f ∈ notBaseFriends vp vl st node) : dget st f = some true := by
  unfold notBaseFriends at hf
  cases hv : vp[node]? with
  | none => rw [hv] at hf; simp at hf
  | some v =>
      simp only [hv] at hf
      by_cases hlen : v.links.length < 2
      · rw [if_pos hlen] at hf
        simp at hf
      · rw [if_neg hlen] at hf
        exact dget_getD_true _ _ (List.mem_filter.mp hf).2

theorem statusTarget_update (st1 status : DictNB) (pT : List ℕ) (n : ℕ)
    (hB : ∀ k, dget status k = some true ↔
      (dget st1 k = some true ∨ k ∈ pT)) :
    ∀ k, dget (dset status n true) k = some true ↔
      (dget st1 k = some true ∨ k ∈ pT ++ [n]) := by
  intro k
  rw [dget_dset]
  by_cases hk : n = k
  · subst hk
    simp
  · rw [if_neg hk]
    rw [hB k]
    have hmiff : (k ∈ pT ++ [n]) ↔ (k ∈ pT) := by
      simp [List.mem_append]
      intro hc
      exact absurd hc.symm hk
    rw [hmiff]

theorem propNode_invC1 (st1 : DictNB) (initSP : List ℕ) (n fb : ℕ)
    (acc : DictNB × List Expr × ℕ)
    (hA : stackOK acc.2.1 initSP [] = true)
    (hB : ∀ k, dget acc.1 k = some true ↔
      (dget st1 k = some true ∨ k ∈ pTargets acc.2.1))
    (hn : n ∈ pTargets acc.2.1) :
    stackOK (propNode n acc fb).2.1 initSP [] = true ∧
    (∀ k, dget (propNode n acc fb).1 k = some true ↔
      (dget st1 k = some true ∨ k ∈ pTargets (propNode n acc fb).2.1)) ∧
    n ∈ pTargets (propNode n acc fb).2.1 := by
  obtain ⟨st, es, ls⟩ := acc
  unfold propNode
  dsimp only at hA hB hn ⊢
  split
  · exact ⟨hA, hB, hn⟩
  · refine ⟨?_, ?_, ?_⟩
    · rw [stackOK_append]
      simp only [hA, Bool.true_and, stackOK, opsOKAmended, pSyms,
        targetSym, operandSyms]
      simp [List.mem_append, hn]
    · intro k
      have hupd := statusTarget_update st1 st (pTargets es) fb hB k
      rw [pTargets_append]
      have ht : pTargets [Expr.pxy (SLabel.P, n) (SLabel.L, ls)
          (SLabel.L, ls + 1) (SLabel.P, fb)] = [fb] := by
        simp [pTargets, pSyms, targetSym]
      rw [ht]
      exact hupd
    · rw [pTargets_append]
      exact List.mem_append_left _ hn

theorem propFold_invC1 (st1 : DictNB) (initSP : List ℕ) (n : ℕ)
    (ns : List ℕ) :
    ∀ (acc : DictNB × List Expr × ℕ),
    stackOK acc.2.1 initSP [] = true →
    (∀ k, dget acc.1 k = some true ↔
      (dget st1 k = some true ∨ k ∈ pTargets acc.2.1)) →
    n ∈ pTargets acc.2.1 →
    stackOK ((ns.foldl (propNode n) acc)).2.1 initSP [] = true ∧
    (∀ k, dget ((ns.foldl (propNode n) acc)).1 k = some true ↔
      (dget st1 k = some true ∨
        k ∈ pTargets ((ns.foldl (propNode n) acc)).2.1)) ∧
    n ∈ pTargets ((ns.foldl (propNode n) acc)).2.1 := by
  induction ns with
  | nil => intro acc hA hB hn; exact ⟨hA, hB, hn⟩
  | cons fb rest ih =>
      intro acc hA hB hn
      obtain ⟨hA', hB', hn'⟩ := propNode_invC1 st1 initSP n fb acc hA hB hn
      exact ih _ hA' hB' hn'

theorem propagate_invC1 (st1 : DictNB) (initSP : List ℕ) (vl : VLinksT)
    (n : ℕ) (links : List String) :
    ∀ (acc : DictNB × List Expr × ℕ),
    stackOK acc.2.1 initSP [] = true →
    (∀ k, dget acc.1 k = some true ↔
      (dget st1 k = some true ∨ k ∈ pTargets acc.2.1)) →
    n ∈ pTargets acc.2.1 →
    stackOK (propagate vl n links acc).2.1 initSP [] = true ∧
    (∀ k, dget (propagate vl n links acc).1 k = some true ↔
      (dget st1 k = some true ∨
        k ∈ pTargets (propagate vl n links acc).2.1)) ∧
    n ∈ pTargets (propagate vl n links acc).2.1 := by
  induction links with
  | nil => intro acc hA hB hn; exact ⟨hA, hB, hn⟩
  | cons l rest ih =>
      intro acc hA hB hn
      simp only [propagate, List.foldl] at ih ⊢
      obtain ⟨hA', hB', hn'⟩ :=
        propFold_invC1 st1 initSP n (vget vl l) acc hA hB hn
      exact ih _ hA' hB' hn'

theorem stepLoop_invC1 (ctx : TCtx) (st1 : DictNB) (s s' : LoopState)
    (h : stepLoop ctx s = Sum.inl s') (hInv : InvC1 st1 s) :
    InvC1 st1 s' := by
  obtain ⟨hA, hB⟩ := hInv
  have hmem : ∀ f, dget s.status f = some true →
      f ∈ trueKeys st1 ++ pTargets s.exprs := by
    intro f hf
    rcases (hB f).mp hf with hx | hx
    · exact List.mem_append_left _ (trueKeys_mem _ _ hx)
    · exact List.mem_append_right _ hx
  unfold stepLoop at h
  by_cases h1 : allLock s.status = true
  · rw [if_pos h1] at h
    exact absurd h (by simp)
  rw [if_neg h1] at h
  by_cases h2 : (!dmem s.status s.node) = true
  · rw [if_pos h2] at h
    by_cases h3 : dmem s.status 0 = true
    · rw [if_pos h3] at h
      simp only [Sum.inl.injEq] at h
      subst h
      exact ⟨hA, hB⟩
    · rw [if_neg h3] at h
      exact absurd h (by simp)
  rw [if_neg h2] at h
  by_cases h4 : s.around ≤ s.skip
  · rw [if_pos h4] at h
    exact absurd h (by simp)
  rw [if_neg h4] at h
  by_cases h5 : (dget s.status s.node).getD false = true
  · rw [if_pos h5] at h
    simp only [Sum.inl.injEq] at h
    subst h
    exact ⟨hA, hB⟩
  rw [if_neg h5] at h
  split at h
  · simp only [Sum.inl.injEq] at h
    subst h
    exact ⟨hA, hB⟩
  · simp only [Sum.inl.injEq] at h
    subst h
    rename_i v hv
    unfold processNode
    dsimp only
    split
    · -- R joint
      split
      · -- input target
        split
        · rename_i b hb
          split
          · -- base solved: emit the driver PLA
            rename_i h6
            have hbmem := List.mem_append.mp
              (hmem b (dget_getD_true _ _ h6))
            constructor
            · rw [stackOK_append]
              simp only [hA, Bool.true_and, stackOK, opsOKAmended,
                pSyms, targetSym, operandSyms]
              simp [hbmem]
            · intro k
              have hupd := statusTarget_update st1 s.status
                (pTargets s.exprs) s.node hB k
              rw [pTargets_append]
              have ht : ∀ a b2 c, pTargets [Expr.pla a b2 c
                  (SLabel.P, s.node)] = [s.node] := by
                intro a b2 c
                simp [pTargets, pSyms, targetSym]
              rw [ht]
              exact hupd
          · exact ⟨hA, hB⟩
        · exact ⟨hA, hB⟩
      · -- plain R joint
        split
        · rename_i fa0 fb0 rest heq
          have hfa := List.mem_append.mp (hmem fa0
            (reliableFriends_solved ctx.vpoints ctx.vlinks s.status
              s.node fa0 (by rw [heq]; exact List.mem_cons_self _ _)))
          have hfb := List.mem_append.mp (hmem fb0
            (reliableFriends_solved ctx.vpoints ctx.vlinks s.status
              s.node fb0 (by
                rw [heq]
                exact List.mem_cons_of_mem _ (List.mem_cons_self _ _))))
          constructor
          · rw [stackOK_append]
            simp only [hA, Bool.true_and, stackOK, opsOKAmended,
              pSyms, targetSym, operandSyms]
            by_cases hcw : clockwiseQ (posAt ctx fa0) (posAt ctx s.node)
                (posAt ctx fb0) = true
            · rw [if_pos hcw]
              simp [hfa, hfb]
            · rw [if_neg hcw]
              simp [hfa, hfb]
          · intro k
            have hupd := statusTarget_update st1 s.status
              (pTargets s.exprs) s.node hB k
            rw [pTargets_append]
            have ht : ∀ a b2 c d, pTargets [Expr.pllp a b2 c d
                (SLabel.P, s.node)] = [s.node] := by
              intro a b2 c d
              simp [pTargets, pSyms, targetSym]
            rw [ht]
            exact hupd
        · exact ⟨hA, hB⟩
    · -- P joint
      split
      · exact ⟨hA, hB⟩
      · split
        · rename_i fa rest heq
          have hfa := List.mem_append.mp (hmem fa
            (notBaseFriends_solved ctx.vpoints ctx.vlinks s.status
              s.node fa (by rw [heq]; exact List.mem_cons_self _ _)))
          have hacc0A : stackOK (s.exprs ++ [Expr.pxy (SLabel.P, fa)
              (SLabel.L, s.lsym) (SLabel.L, s.lsym + 1)
              (SLabel.P, s.node)]) (trueKeys st1) [] = true := by
            rw [stackOK_append]
            simp only [hA, Bool.true_and, stackOK, opsOKAmended,
              pSyms, targetSym, operandSyms]
            simp [hfa]
          have htx : pTargets [Expr.pxy (SLabel.P, fa) (SLabel.L, s.lsym)
              (SLabel.L, s.lsym + 1) (SLabel.P, s.node)] = [s.node] := by
            simp [pTargets, pSyms, targetSym]
          have hacc0B : ∀ k, dget (dset s.status s.node true) k =
              some true ↔ (dget st1 k = some true ∨
                k ∈ pTargets (s.exprs ++ [Expr.pxy (SLabel.P, fa)
                  (SLabel.L, s.lsym) (SLabel.L, s.lsym + 1)
                  (SLabel.P, s.node)])) := by
            intro k
            rw [pTargets_append, htx]
            exact statusTarget_update st1 s.status
              (pTargets s.exprs) s.node hB k
          have hacc0n : s.node ∈ pTargets (s.exprs ++ [Expr.pxy
              (SLabel.P, fa) (SLabel.L, s.lsym) (SLabel.L, s.lsym + 1)
              (SLabel.P, s.node)]) := by
            rw [pTargets_append, htx]
            simp
          obtain ⟨hA', hB', _⟩ := propagate_invC1 st1 (trueKeys st1)
            ctx.vlinks s.node v.links.tail
            (dset s.status s.node true,
              s.exprs ++ [Expr.pxy (SLabel.P, fa) (SLabel.L, s.lsym)
                (SLabel.L, s.lsym + 1) (SLabel.P, s.node)],
              s.lsym + 2) hacc0A hacc0B hacc0n
          exact ⟨hA', hB'⟩
        · exact ⟨hA, hB⟩
    · -- RP joint
      by_cases hcond : (v.pin_grounded || !v.grounded || v.has_offset) =
          true
      · rw [if_pos hcond]
        exact ⟨hA, hB⟩
      · rw [if_neg hcond]
        have hgr : v.grounded = true := by
          cases hgb : v.grounded
          · exact absurd (by rw [hgb]; simp) hcond
          · rfl
        split
        · rename_i fa restnb fb0 bfs heqnb heqbf
          simp only [hgr, Bool.not_true, Bool.false_eq_true, if_false]
          have hfa := List.mem_append.mp (hmem fa
            (notBaseFriends_solved ctx.vpoints ctx.vlinks s.status
              s.node fa (by rw [heqnb]; exact List.mem_cons_self _ _)))
          constructor
          · rw [stackOK_append]
            simp only [hA, Bool.true_and, stackOK, opsOKAmended,
              pSyms, targetSym, operandSyms]
            simp [hfa]
          · intro k
            have hupd := statusTarget_update st1 s.status
              (pTargets s.exprs) s.node hB k
            rw [pTargets_append]
            have ht : ∀ a b2 c d e2 p2 q2 r2 op,
                pTargets [Expr.pllp a b2 c d (SLabel.S, s.node),
                  Expr.plpp e2 p2 q2 r2 (SLabel.P, s.node) op] =
                  [s.node] := by
              intro a b2 c d e2 p2 q2 r2 op
              simp [pTargets, pSyms, targetSym]
            rw [ht]
            exact hupd
        · exact ⟨hA, hB⟩

theorem loop_invC1 (ctx : TCtx) (st1 : DictNB) (s : LoopState)
    (hInv : InvC1 st1 s) : InvC1 st1 (loop ctx s) := by
  revert hInv
  induction s using loop.induct ctx with
  | case1 x s1 heq =>
      intro hInv
      rw [loop_inr ctx x s1 heq]
      obtain ⟨rfl, _⟩ := stepLoop_inr_cases ctx x s1 heq
      exact hInv
  | case2 x s' heq ih =>
      intro hInv
      rw [loop_inl ctx x s' heq]
      exact ih (stepLoop_invC1 ctx st1 x s' heq hInv)

theorem driverFold_invC1 (st1 : DictNB) (inputs : List (ℕ × ℕ)) :
    ∀ acc : DictNB × List Expr × ℕ × ℕ,
    stackOK acc.2.1 (trueKeys st1) [] = true →
    (∀ k, dget acc.1 k = some true ↔
      (dget st1 k = some true ∨ k ∈ pTargets acc.2.1)) →
    stackOK (inputs.foldl driverStep acc).2.1 (trueKeys st1) [] = true ∧
    ∀ k, dget (inputs.foldl driverStep acc).1 k = some true ↔
      (dget st1 k = some true ∨
        k ∈ pTargets (inputs.foldl driverStep acc).2.1) := by
  induction inputs with
  | nil => intro acc hA hB; exact ⟨hA, hB⟩
  | cons bn rest ih =>
      intro acc hA hB
      simp only [List.foldl]
      apply ih
      all_goals
        obtain ⟨st, es, ls, asy⟩ := acc
        unfold driverStep
        dsimp only at hA hB ⊢
      · split
        · rename_i h6
          rw [stackOK_append]
          simp only [hA, Bool.true_and, stackOK, opsOKAmended,
            pSyms, targetSym, operandSyms]
          have hbmem : bn.1 ∈ trueKeys st1 ∨ bn.1 ∈ pTargets es := by
            rcases (hB bn.1).mp (dget_getD_true _ _ h6) with hx | hx
            · exact Or.inl (trueKeys_mem _ _ hx)
            · exact Or.inr hx
          simp [hbmem]
        · exact hA
      · split
        · rename_i h6
          intro k
          have hupd := statusTarget_update st1 st (pTargets es) bn.2 hB k
          rw [pTargets_append]
          have ht : ∀ a b2 c, pTargets [Expr.pla a b2 c
              (SLabel.P, bn.2)] = [bn.2] := by
            intro a b2 c
            simp [pTargets, pSyms, targetSym]
          rw [ht]
          exact hupd
        · exact hB

/-- C1 amended: in the stack returned by `t_config`, every construction
with a P-labelled (joint) target is marked solved immediately after its
emission — the final status holds `True` exactly for the initially solved
joints and the P-targets of the stack — and every P-labelled operand is
solved at emission time (initially solved — grounded R or linkless — or an
input-driven or previously constructed point), *except* in the two RP
constructions: the synthetic-S `PLLP` reads the still-unsolved RP joint
itself (the `fc = node` placeholder) and an arbitrary member of the slot
link, and the following `PLPP` reads its own target; an S-labelled operand
is always the S-target of an earlier construction. -/
theorem C1_stack_soundness (vp : List VPointM) (inputs : List (ℕ × ℕ))
    (st0 : DictNB) (cA sA : ℚ → ℚ) (hvp : vp ≠ []) (hin : inputs ≠ []) :
    stackOK (t_config vp inputs st0 cA sA).1
      (trueKeys (initStatus vp st0)) [] = true ∧
    ∀ k, dget (t_config vp inputs st0 cA sA).2 k = some true ↔
      (dget (initStatus vp st0) k = some true ∨
        k ∈ pTargets (t_config vp inputs st0 cA sA).1) := by
  have hvp' : vp.isEmpty = false := by
    cases vp
    · exact absurd rfl hvp
    · rfl
  have hin' : inputs.isEmpty = false := by
    cases inputs
    · exact absurd rfl hin
    · rfl
  unfold t_config
  simp only [hvp', hin', Bool.false_eq_true, if_false]
  obtain ⟨h1, h2⟩ := driverFold_invC1 (initStatus vp st0) inputs
    (initStatus vp st0, [], 0, 0) (by simp [stackOK])
    (by intro k; simp [pTargets])
  have hfin := loop_invC1
    { vpoints := promote (buildVLinks vp) vp, vlinks := buildVLinks vp,
      pos := buildPos (promote (buildVLinks vp) vp), inputs := inputs,
      cosA := cA, sinA := sA }
    (initStatus vp st0)
    { status := (driverPhase inputs (initStatus vp st0)).1,
      exprs := (driverPhase inputs (initStatus vp st0)).2.1,
      lsym := (driverPhase inputs (initStatus vp st0)).2.2.1,
      asym := (driverPhase inputs (initStatus vp st0)).2.2.2,
      node := 0, skip := 0,
      around := (driverPhase inputs (initStatus vp st0)).1.length }
    ⟨h1, h2⟩
  exact hfin

/-- C1 fails on the code: for the two-link mechanism with a grounded R
joint 0, a grounded RP joint 1 and a driven R joint 2 (input pair (0, 2)),
the emitted stack is `PLA(P0 → P2); PLLP(P0, …, P1 → S1); PLPP(P2, …, P1)`
and the `PLLP`'s operand `P1` is neither an input-driver point nor the
target of an earlier construction (nor even initially solved) — the RP
branch pairs the joint being solved with its base friend before solving
it. -/
theorem C1_counterexample :
    operandOK_claim
      (List.map Prod.fst [((0 : ℕ), (2 : ℕ))])
      (t_config
        [VPointM.r_joint ["ground", "L1"] 0 0,
         VPointM.slider_joint ["ground", "L2"] VJoint.RP 0 1 0,
         VPointM.r_joint ["L1", "L2"] 10 0]
        [(0, 2)] [] (fun _ => 1) (fun _ => 0)).1 [] = false := by
  have hs0 : stepLoop
      { vpoints := [VPointM.r_joint ["ground", "L1"] 0 0,
          VPointM.slider_joint ["ground", "L2"] VJoint.RP 0 1 0,
          VPointM.r_joint ["L1", "L2"] 10 0],
        vlinks := [("ground", [0, 1]), ("L1", [0, 2]), ("L2", [1, 2])],
        pos := [(0, 0), (1, 0), (10, 0)],
        inputs := [(0, 2)], cosA := fun _ => 1, sinA := fun _ => 0 }
      { status := [(0, true), (1, false), (2, true)],
        exprs := [Expr.pla (SLabel.P, 0) (SLabel.L, 0) (SLabel.A, 0)
          (SLabel.P, 2)],
        lsym := 1, asym := 1, node := 0, skip := 0, around := 3 } =
      Sum.inl
      { status := [(0, true), (1, false), (2, true)],
        exprs := [Expr.pla (SLabel.P, 0) (SLabel.L, 0) (SLabel.A, 0)
          (SLabel.P, 2)],
        lsym := 1, asym := 1, node := 1, skip := 1, around := 3 } := by
    rfl
  have hs1 : stepLoop
      { vpoints := [VPointM.r_joint ["ground", "L1"] 0 0,
          VPointM.slider_joint ["ground", "L2"] VJoint.RP 0 1 0,
          VPointM.r_joint ["L1", "L2"] 10 0],
        vlinks := [("ground", [0, 1]), ("L1", [0, 2]), ("L2", [1, 2])],
        pos := [(0, 0), (1, 0), (10, 0)],
        inputs := [(0, 2)], cosA := fun _ => 1, sinA := fun _ => 0 }
      { status := [(0, true), (1, false), (2, true)],
        exprs := [Expr.pla (SLabel.P, 0) (SLabel.L, 0) (SLabel.A, 0)
          (SLabel.P, 2)],
        lsym := 1, asym := 1, node := 1, skip := 1, around := 3 } =
      Sum.inl
      { status := [(0, true), (1, true), (2, true)],
        exprs := [Expr.pla (SLabel.P, 0) (SLabel.L, 0) (SLabel.A, 0)
            (SLabel.P, 2),
          Expr.pllp (SLabel.P, 0) (SLabel.L, 1) (SLabel.L, 2)
            (SLabel.P, 1) (SLabel.S, 1),
          Expr.plpp (SLabel.P, 2) (SLabel.L, 3) (SLabel.P, 1)
            (SLabel.S, 1) (SLabel.P, 1) true],
        lsym := 4, asym := 1, node := 2, skip := 0, around := 3 } := by
    simp [stepLoop, processNode, allLock, dmem, dget, dset,
      skipState, notBaseFriends, baseFriends, vget, posAt, isInputTarget,
      inputBase, VPointM.pin_grounded, VPointM.grounded,
      VPointM.is_slot_link, VPointM.slider_joint, VPointM.r_joint,
      List.find?, clockwiseQ]
  have hs2 : stepLoop
      { vpoints := [VPointM.r_joint ["ground", "L1"] 0 0,
          VPointM.slider_joint ["ground", "L2"] VJoint.RP 0 1 0,
          VPointM.r_joint ["L1", "L2"] 10 0],
        vlinks := [("ground", [0, 1]), ("L1", [0, 2]), ("L2", [1, 2])],
        pos := [(0, 0), (1, 0), (10, 0)],
        inputs := [(0, 2)], cosA := fun _ => 1, sinA := fun _ => 0 }
      { status := [(0, true), (1, true), (2, true)],
        exprs := [Expr.pla (SLabel.P, 0) (SLabel.L, 0) (SLabel.A, 0)
            (SLabel.P, 2),
          Expr.pllp (SLabel.P, 0) (SLabel.L, 1) (SLabel.L, 2)
            (SLabel.P, 1) (SLabel.S, 1),
          Expr.plpp (SLabel.P, 2) (SLabel.L, 3) (SLabel.P, 1)
            (SLabel.S, 1) (SLabel.P, 1) true],
        lsym := 4, asym := 1, node := 2, skip := 0, around := 3 } =
      Sum.inr
      { status := [(0, true), (1, true), (2, true)],
        exprs := [Expr.pla (SLabel.P, 0) (SLabel.L, 0) (SLabel.A, 0)
            (SLabel.P, 2),
          Expr.pllp (SLabel.P, 0) (SLabel.L, 1) (SLabel.L, 2)
            (SLabel.P, 1) (SLabel.S, 1),
          Expr.plpp (SLabel.P, 2) (SLabel.L, 3) (SLabel.P, 1)
            (SLabel.S, 1) (SLabel.P, 1) true],
        lsym := 4, asym := 1, node := 2, skip := 0, around := 3 } := by
    rfl
  have hT : t_config
      [VPointM.r_joint ["ground", "L1"] 0 0,
       VPointM.slider_joint ["ground", "L2"] VJoint.RP 0 1 0,
       VPointM.r_joint ["L1", "L2"] 10 0]
      [(0, 2)] [] (fun _ => 1) (fun _ => 0) =
      ((loop
        { vpoints := [VPointM.r_joint ["ground", "L1"] 0 0,
            VPointM.slider_joint ["ground", "L2"] VJoint.RP 0 1 0,
            VPointM.r_joint ["L1", "L2"] 10 0],
          vlinks := [("ground", [0, 1]), ("L1", [0, 2]), ("L2", [1, 2])],
          pos := [(0, 0), (1, 0), (10, 0)],
          inputs := [(0, 2)], cosA := fun _ => 1, sinA := fun _ => 0 }
        { status := [(0, true), (1, false), (2, true)],
          exprs := [Expr.pla (SLabel.P, 0) (SLabel.L, 0) (SLabel.A, 0)
            (SLabel.P, 2)],
          lsym := 1, asym := 1, node := 0, skip := 0,
          around := 3 }).exprs,
       (loop
        { vpoints := [VPointM.r_joint ["ground", "L1"] 0 0,
            VPointM.slider_joint ["ground", "L2"] VJoint.RP 0 1 0,
            VPointM.r_joint ["L1", "L2"] 10 0],
          vlinks := [("ground", [0, 1]), ("L1", [0, 2]), ("L2", [1, 2])],
          pos := [(0, 0), (1, 0), (10, 0)],
          inputs := [(0, 2)], cosA := fun _ => 1, sinA := fun _ => 0 }
        { status := [(0, true), (1, false), (2, true)],
          exprs := [Expr.pla (SLabel.P, 0) (SLabel.L, 0) (SLabel.A, 0)
            (SLabel.P, 2)],
          lsym := 1, asym := 1, node := 0, skip := 0,
          around := 3 }).status) := rfl
  rw [hT, loop_inl _ _ _ hs0, loop_inl _ _ _ hs1, loop_inr _ _ _ hs2]
  rfl

/-- Witness for C1 at a one-joint mechanism. -/
theorem C1_witness :
    ([VPointM.r_joint ["ground"] 0 0] : List VPointM) ≠ [] ∧
    ([((0 : ℕ), (0 : ℕ))] : List (ℕ × ℕ)) ≠ [] ∧
    (stackOK (t_config [VPointM.r_joint ["ground"] 0 0] [(0, 0)] []
        (fun _ => 0) (fun _ => 0)).1
      (trueKeys (initStatus [VPointM.r_joint ["ground"] 0 0] [])) [] =
        true ∧
      ∀ k, dget (t_config [VPointM.r_joint ["ground"] 0 0] [(0, 0)] []
          (fun _ => 0) (fun _ => 0)).2 k = some true ↔
        (dget (initStatus [VPointM.r_joint ["ground"] 0 0] []) k =
          some true ∨
          k ∈ pTargets (t_config [VPointM.r_joint ["ground"] 0 0]
            [(0, 0)] [] (fun _ => 0) (fun _ => 0)).1)) :=
  ⟨List.cons_ne_nil _ _, List.cons_ne_nil _ _,
    C1_stack_soundness _ _ _ _ _ (List.cons_ne_nil _ _)
      (List.cons_ne_nil _ _)⟩
